import Mathlib

/-!
Verification of the gadget discovery engine of `ropgen.py` (class `ROP`).

The scanner (`ROP.find_gadgets`, lines 234-264), the tail classifier
(`ROP.check_end`, lines 278-326), the interesting-gadget selector
(`ROP.check_interesting`, lines 328-348) and the address formatting
(`f"{address:#08x}"`, lines 268 and 342) are embedded as executable Lean
definitions over `List Char` text.  The capstone decoder is treated as a
black box: a function from a file offset to the list of decoded
`(mnemonic, op_str)` pairs obtained from the 20-byte window at that offset,
exactly as the script consumes it.  Python's `re.match` is embedded as a
small regex matcher (`rmatchR`/`rmatchAux`/`re_match`) for the fragment of
regex syntax the script actually uses (literals, `.`, classes, groups,
`*`, `+`, `?`, lazy `*?`, `^`, `$`); `re.match` anchors at the start of the
text and succeeds when any prefix of the text matches, which `re_match`
reproduces by running from position 0.
-/

/-- The characters of a string literal, the text representation used
throughout the embedding. -/
def chars (s : String) : List Char := s.data

/-- Python `str.strip` whitespace test (the characters relevant here). -/
def is_space (c : Char) : Bool := c == ' ' || c == '\t' || c == '\n' || c == '\r'

/-- Python `str.strip`: drop whitespace from both ends. -/
def py_strip (l : List Char) : List Char :=
  ((l.dropWhile is_space).reverse.dropWhile is_space).reverse

/-- Line 249-250 of `ropgen.py`: `inst = f"{decoded.mnemonic} {decoded.op_str}".strip()`. -/
def render (d : List Char × List Char) : List Char := py_strip (d.1 ++ ' ' :: d.2)

/-- Line 269 / line 335: `"; ".join(instructions)`. -/
def join_semi (l : List (List Char)) : List Char := List.intercalate (chars "; ") l

/-- Python `range(a, b, c)` for a nonnegative step, as the list of visited
values: `a, a+c, a+2c, ...` strictly below `b`. -/
def py_range (a b c : Nat) : List Nat :=
  (List.range ((b - a + c - 1) / c)).map (fun k => a + c * k)

/-- Abstract syntax of the regex fragment used by `ropgen.py`:
empty string, `^`, `$`, a literal character, `.`, a character class
`[...]`, concatenation, `*` (also covering lazy `*?`, which accepts the
same texts), and `?`.  `+` is encoded as `cat a (star a)`. -/
inductive Regex where
  | eps
  | bos
  | eos
  | chr (c : Char)
  | any
  | cls (cs : List Char)
  | cat (a b : Regex)
  | star (a : Regex)
  | opt (a : Regex)
deriving DecidableEq

/-- One layer of the matcher.  A state is a pair `(p, s)` of the absolute
position in the subject and the remaining suffix; a regex maps a state to
the list of all states reachable by matching it.  `sc` is the continuation
used to run one more unfolding of a `star` body (it is instantiated with
the matcher at one fuel level lower).  `^` succeeds only at position 0,
`$` only at the end of the subject, `.` matches any character except a
newline, and a `star` iteration is required to consume at least one
character (which does not change the set of accepted subjects). -/
def rmatchR (sc : Regex → Nat → List Char → List (Nat × List Char)) :
    Regex → Nat → List Char → List (Nat × List Char)
  | .eps, p, s => [(p, s)]
  | .bos, p, s => if p = 0 then [(p, s)] else []
  | .eos, p, s => if s = [] then [(p, s)] else []
  | .chr c, p, s =>
    match s with
    | [] => []
    | x :: rest => if x = c then [(p + 1, rest)] else []
  | .any, p, s =>
    match s with
    | [] => []
    | x :: rest => if x = '\n' then [] else [(p + 1, rest)]
  | .cls cs, p, s =>
    match s with
    | [] => []
    | x :: rest => if x ∈ cs then [(p + 1, rest)] else []
  | .cat a b, p, s => (rmatchR sc a p s).flatMap (fun pr => rmatchR sc b pr.1 pr.2)
  | .opt a, p, s => (p, s) :: rmatchR sc a p s
  | .star a, p, s =>
    (p, s) :: ((rmatchR sc a p s).filter (fun pr => decide (pr.2.length < s.length))).flatMap
      (fun pr => sc a pr.1 pr.2)

/-- The matcher with fuel bounding the number of `star` unfoldings.  Since
every `star` iteration consumes at least one character, fuel
`length of the subject + 1` is enough for every match. -/
def rmatchAux : Nat → Regex → Nat → List Char → List (Nat × List Char)
  | 0 => rmatchR (fun _ p s => [(p, s)])
  | f + 1 => rmatchR (fun a p s => rmatchAux f (.star a) p s)

/-- Embedding of Python `re.match(pattern, text)` truthiness: run the
pattern at position 0 of the text; success iff some (possibly proper)
prefix of the text matches. -/
def re_match (r : Regex) (s : List Char) : Bool :=
  !(rmatchAux (s.length + 1) r 0 s).isEmpty

/-- Whether the pattern contains no end anchor `$`. -/
def no_eos : Regex → Bool
  | .eos => false
  | .cat a b => no_eos a && no_eos b
  | .star a => no_eos a
  | .opt a => no_eos a
  | _ => true

/-- Concatenation of a list of regexes. -/
def rseq (l : List Regex) : Regex := l.foldr Regex.cat Regex.eps

/-- A literal text as a regex. -/
def rstr (s : List Char) : Regex := rseq (s.map Regex.chr)

/-- Line 287: `call r..?`. -/
def re_call_r64 : Regex := rseq [rstr (chars "call r"), .any, .opt .any]

/-- Line 297: `call e..`. -/
def re_call_e32 : Regex := rseq [rstr (chars "call e"), .any, .any]

/-- Lines 302 and 323: `pop {.*?, pc}`. -/
def re_pop_pc : Regex :=
  rseq [rstr (chars "pop \x7b"), .star .any, rstr (chars ", pc\x7d")]

/-- Lines 306 and 316: `s[vw][ci] .*?`. -/
def re_svc : Regex :=
  rseq [.chr 's', .cls (chars "vw"), .cls (chars "ci"), .chr ' ', .star .any]

/-- Line 311: `bl?x? ..$`. -/
def re_bx : Regex :=
  rseq [.chr 'b', .opt (.chr 'l'), .opt (.chr 'x'), .chr ' ', .any, .any, .eos]

/-- The group `(pop e..; )` of the x86/x64 pop patterns. -/
def gpop_e : Regex := rseq [rstr (chars "pop e"), .any, .any, rstr (chars "; ")]

/-- The group `(pop r..; )` of the x64 pop pattern. -/
def gpop_r : Regex := rseq [rstr (chars "pop r"), .any, .any, rstr (chars "; ")]

/-- Lines 41-42 of `ropgen.py`: the first element of `patterns_x86`.  The
missing comma between the adjacent string literals `r"^(pop e..; )*ret"`
and `r"^(pop e..; )call e.."` concatenates them into the single pattern
`^(pop e..; )*ret^(pop e..; )call e..`, whose second `^` sits in the
interior of the pattern. -/
def pat86_popret_call : Regex :=
  rseq [.bos, .star gpop_e, rstr (chars "ret"), .bos, gpop_e,
        rstr (chars "call e"), .any, .any]

/-- Line 43: `^(pop e..; )jmp e..`. -/
def pat86_jmp : Regex := rseq [.bos, gpop_e, rstr (chars "jmp e"), .any, .any]

/-- Line 44: `^mov dword ptr \[e..\], e..; ret`. -/
def pat86_mov : Regex :=
  rseq [.bos, rstr (chars "mov dword ptr [e"), .any, .any,
        rstr (chars "], e"), .any, .any, rstr (chars "; ret")]

/-- Lines 41-45: `ROP.patterns_x86` (three elements, because of the missing
comma on line 41). -/
def patterns_x86 : List Regex := [pat86_popret_call, pat86_jmp, pat86_mov]

/-- Line 47: `^(pop e..; )*ret`. -/
def pat64_pop_e : Regex := rseq [.bos, .star gpop_e, rstr (chars "ret")]

/-- Line 48: `^(pop r..; )*ret`. -/
def pat64_pop_r : Regex := rseq [.bos, .star gpop_r, rstr (chars "ret")]

/-- Line 49: `^mov [dq]word ptr \[r..\], r..; ret`. -/
def pat64_mov_r : Regex :=
  rseq [.bos, rstr (chars "mov "), .cls (chars "dq"), rstr (chars "word ptr [r"),
        .any, .any, rstr (chars "], r"), .any, .any, rstr (chars "; ret")]

/-- Line 50: `^mov [dq]word ptr \[r..\], e..; ret`. -/
def pat64_mov_e : Regex :=
  rseq [.bos, rstr (chars "mov "), .cls (chars "dq"), rstr (chars "word ptr [r"),
        .any, .any, rstr (chars "], e"), .any, .any, rstr (chars "; ret")]

/-- Lines 47-51: `ROP.patterns_x64`. -/
def patterns_x64 : List Regex := [pat64_pop_e, pat64_pop_r, pat64_mov_r, pat64_mov_e]

/-- The group `(...?, )` of the arm pop pattern. -/
def grp_arm_reg : Regex := rseq [.any, .any, .opt .any, rstr (chars ", ")]

/-- Line 53: `^pop {(...?, )+pc}`. -/
def pat_arm_pop : Regex :=
  rseq [.bos, rstr (chars "pop \x7b"), .cat grp_arm_reg (.star grp_arm_reg),
        rstr (chars "pc\x7d")]

/-- Line 54: `^bl?x? ...?$`. -/
def pat_arm_bx : Regex :=
  rseq [.bos, .chr 'b', .opt (.chr 'l'), .opt (.chr 'x'), .chr ' ',
        .any, .any, .opt .any, .eos]

/-- Line 55: `^str.*? r..?, \[r..?\]`. -/
def pat_arm_str : Regex :=
  rseq [.bos, rstr (chars "str"), .star .any, rstr (chars " r"), .any, .opt .any,
        rstr (chars ", [r"), .any, .opt .any, .chr ']']

/-- Lines 53-56: `ROP.patterns_arm`. -/
def patterns_arm : List Regex := [pat_arm_pop, pat_arm_bx, pat_arm_str]

/-- Line 57: `ROP.patterns_aarch64 = None`. -/
def patterns_aarch64 : Option (List Regex) := none

/-- The four architectures `set_mode` accepts (lines 110-129); every other
value makes the constructor `exit(1)` before the engine runs. -/
inductive Arch where
  | x86
  | x64
  | arm
  | aarch64
deriving DecidableEq

/-- Lines 112-129: the per-architecture pattern table selected in
`set_mode` (`self.pattern`). -/
def pattern_of : Arch → Option (List Regex)
  | .x64 => some patterns_x64
  | .x86 => some patterns_x86
  | .arm => some patterns_arm
  | .aarch64 => patterns_aarch64

/-- Lines 278-326: `ROP.check_end`, the tail classifier, with the exact
branch order of the source. -/
def check_end : Arch → List Char → Bool
  | .x64, inst =>
    inst == chars "ret" || inst == chars "syscall" || re_match re_call_r64 inst
  | .x86, inst =>
    inst == chars "ret" || inst == chars "int 0x80" || re_match re_call_e32 inst
  | .arm, inst =>
    re_match re_pop_pc inst || re_match re_svc inst || re_match re_bx inst
  | .aarch64, inst =>
    re_match re_svc inst || inst == chars "ret" || re_match re_pop_pc inst

/-- Lines 246-258 of `find_gadgets`: accumulate rendered instructions of
one decoded window until the first one the tail classifier accepts;
`none` when the window produces no terminating instruction (`found`
stays false and the offset is skipped). -/
def take_gadget (arch : Arch) : List (List Char) → Option (List (List Char))
  | [] => none
  | inst :: rest =>
    if check_end arch inst then some [inst]
    else (take_gadget arch rest).map (fun t => inst :: t)

/-- One iteration of the scan loop (lines 243-264): decode the window at
offset `i`, extract the candidate, drop it if no tail was found or if an
equal instruction sequence is already stored, otherwise store it under
the virtual address `va + i`. -/
def scan_step (arch : Arch) (va : Nat) (dec : Nat → List (List Char × List Char))
    (gs : List (Nat × List (List Char))) (i : Nat) : List (Nat × List (List Char)) :=
  match take_gadget arch ((dec i).map render) with
  | none => gs
  | some tmp => if gs.any (fun g => g.2 == tmp) then gs else gs ++ [(va + i, tmp)]

/-- Lines 239-264: the scan of `ROP.find_gadgets` over
`range(start, end + instruction_size * 2, instruction_size)`, run from an
empty store.  `dec i` is the black-box decode of the 20-byte window
`file_content[i:i+20]` as `(mnemonic, op_str)` pairs. -/
def find_gadgets (arch : Arch) (dec : Nat → List (List Char × List Char))
    (va strt stop stp : Nat) : List (Nat × List (List Char)) :=
  (py_range strt (stop + stp * 2) stp).foldl (scan_step arch va dec) []

/-- The hex digit of a value below 16 (lowercase, as Python `x` format). -/
def hexChar : Nat → Char
  | 0 => '0'
  | 1 => '1'
  | 2 => '2'
  | 3 => '3'
  | 4 => '4'
  | 5 => '5'
  | 6 => '6'
  | 7 => '7'
  | 8 => '8'
  | 9 => '9'
  | 10 => 'a'
  | 11 => 'b'
  | 12 => 'c'
  | 13 => 'd'
  | 14 => 'e'
  | _ => 'f'

/-- The value of a lowercase hex digit. -/
def hexVal : Char → Nat
  | '0' => 0
  | '1' => 1
  | '2' => 2
  | '3' => 3
  | '4' => 4
  | '5' => 5
  | '6' => 6
  | '7' => 7
  | '8' => 8
  | '9' => 9
  | 'a' => 10
  | 'b' => 11
  | 'c' => 12
  | 'd' => 13
  | 'e' => 14
  | 'f' => 15
  | _ => 0

/-- Hex digits of `n`, least significant first, with explicit fuel. -/
def to_hex_rev : Nat → Nat → List Char
  | 0, _ => []
  | f + 1, n => if n < 16 then [hexChar n] else hexChar (n % 16) :: to_hex_rev f (n / 16)

/-- The hex digit string of `n` (no prefix, no padding), as Python `x`. -/
def hex_digits (n : Nat) : List Char := (to_hex_rev (n + 1) n).reverse

/-- The numeric value of a hex digit string. -/
def from_hex (l : List Char) : Nat := l.foldl (fun acc c => 16 * acc + hexVal c) 0

/-- Python `f"{a:#08x}"` (lines 268 and 342): `0x` prefix, lowercase hex,
zero-padded between the prefix and the digits to a total width of 8. -/
def format_addr (a : Nat) : List Char :=
  '0' :: 'x' :: (List.replicate (6 - (hex_digits a).length) '0' ++ hex_digits a)

/-- One report line, `f"{address:#08x}: " + "; ".join(instructions) + "\n"`
(lines 268-269, identically shaped on line 342). -/
def gadget_line (a : Nat) (insts : List (List Char)) : List Char :=
  format_addr a ++ chars ": " ++ join_semi insts ++ ['\n']

/-- Python dict assignment `d[k] = v`: replace in place when the key is
present, append otherwise. -/
def dict_insert (k : Nat) (v : List (List Char)) (d : List (Nat × List (List Char))) :
    List (Nat × List (List Char)) :=
  if d.any (fun p => p.1 == k) then d.map (fun p => if p.1 == k then (k, v) else p)
  else d ++ [(k, v)]

/-- Line 350-351: the no-op extension hook. -/
def make_function (_a : Nat) (_g : List (List Char)) : Unit := ()

/-- One iteration of the inner template loop of `check_interesting`
(lines 336-342): when the template matches the joined gadget text and no
interesting gadget with equal content exists, record the gadget and
append its report line.  The state carries the interesting store, the
accumulated `to_write` text, and — as pure instrumentation for the
theorems — the list of template indices at which a record fired. -/
def ig_step (addr : Nat) (insts : List (List Char))
    (st : List (Nat × List (List Char)) × List Char × List Nat) (ip : Nat × Regex) :
    List (Nat × List (List Char)) × List Char × List Nat :=
  if re_match ip.2 (join_semi insts) && !(st.1.any (fun p => p.2 == insts)) then
    (dict_insert addr insts st.1, st.2.1 ++ gadget_line addr insts, st.2.2 ++ [ip.1])
  else st

/-- The full inner template loop for one gadget, over the indexed
template list. -/
def proc_gadget (pats : List Regex) (addr : Nat) (insts : List (List Char))
    (ig : List (Nat × List (List Char))) :
    List (Nat × List (List Char)) × List Char × List Nat :=
  pats.enum.foldl (ig_step addr insts) (ig, [], [])

/-- Lines 328-348: `ROP.check_interesting`.  Returns the interesting store
and the section text appended to the report file (`none` when the pattern
table is `None` — the early `return False` — or when no interesting gadget
exists, so nothing is appended). -/
def check_interesting (patOpt : Option (List Regex))
    (gadgets : List (Nat × List (List Char))) (ig0 : List (Nat × List (List Char))) :
    List (Nat × List (List Char)) × Option (List Char) :=
  match patOpt with
  | none => (ig0, none)
  | some pats =>
    let fin := gadgets.foldl (fun st g =>
      let r := proc_gadget pats g.1 g.2 st.1
      (r.1, st.2 ++ r.2.1)) (ig0, ([] : List Char))
    (fin.1, if 0 < fin.1.length then some (chars "\n\nInteresting Gadgets:\n" ++ fin.2)
            else none)

example : re_match pat64_pop_e (chars "ret") = true := by decide
example : re_match pat64_pop_e (chars "pop eax; pop ebx; ret") = true := by decide
example : re_match pat64_pop_r (chars "pop rdi; ret") = true := by decide
example : re_match pat64_pop_e (chars "mov rax, 1; ret") = false := by decide
example : re_match pat_arm_pop (chars "pop \x7br4, pc\x7d") = true := by decide
example : re_match pat_arm_bx (chars "bx r3") = true := by decide
example : re_match pat_arm_bx (chars "bx r3; ret") = false := by decide
example : check_end .x64 (chars "ret") = true := by decide
example : check_end .x64 (chars "call rax") = true := by decide
example : check_end .arm (chars "pop \x7br4, pc\x7d") = true := by decide
example : check_end .arm (chars "svc #0") = true := by decide
example : check_end .arm (chars "bx r3") = true := by decide
example : check_end .aarch64 (chars "ret") = true := by decide
example : check_end .x86 (chars "int 0x80") = true := by decide
example : format_addr 10 = chars "0x00000a" := by decide
example : format_addr 1193046 = chars "0x123456" := by decide
example : format_addr 4886718345 = chars "0x123456789" := by decide
example : py_range 0 17 1 = [0, 1, 2, 3, 4, 5, 6, 7, 8, 9, 10, 11, 12, 13, 14, 15, 16] := by decide
example : py_range 10 7 1 = [] := by decide
example : render (chars "ret", chars "") = chars "ret" := by decide
example : render (chars "mov", chars "rax, 1") = chars "mov rax, 1" := by decide
example :
    find_gadgets .x64 (fun i => if i = 10 then [(chars "ret", [])] else []) 7 0 15 1
      = [(17, [chars "ret"])] := by decide

/-! ### Lemmas about the scanner -/

theorem take_gadget_some (arch : Arch) :
    ∀ (l t : List (List Char)), take_gadget arch l = some t →
      ∃ body lastI, t = body ++ [lastI] ∧ check_end arch lastI = true ∧
        ∀ x ∈ body, check_end arch x = false := by
  intro l
  induction l with
  | nil => intro t ht; simp [take_gadget] at ht
  | cons inst rest ih =>
    intro t ht
    by_cases h : check_end arch inst
    · simp [take_gadget, h] at ht
      exact ⟨[], inst, by simp [ht.symm], h, by simp⟩
    · simp [take_gadget, h] at ht
      obtain ⟨t', ht', rfl⟩ := ht
      obtain ⟨body, lastI, rfl, hlast, hbody⟩ := ih t' ht'
      refine ⟨inst :: body, lastI, rfl, hlast, ?_⟩
      intro x hx
      rcases List.mem_cons.mp hx with rfl | hx
      · simpa using h
      · exact hbody x hx

theorem take_gadget_none (arch : Arch) :
    ∀ (l : List (List Char)), (∀ x ∈ l, check_end arch x = false) →
      take_gadget arch l = none := by
  intro l
  induction l with
  | nil => intro _; rfl
  | cons inst rest ih =>
    intro h
    have hinst : check_end arch inst = false := h inst (List.mem_cons_self _ _)
    simp [take_gadget, hinst, ih (fun x hx => h x (List.mem_cons_of_mem _ hx))]

theorem scan_step_none (arch : Arch) (va : Nat) (dec : Nat → List (List Char × List Char))
    (gs : List (Nat × List (List Char))) (i : Nat)
    (h : take_gadget arch ((dec i).map render) = none) :
    scan_step arch va dec gs i = gs := by
  unfold scan_step
  rw [h]

theorem scan_step_some (arch : Arch) (va : Nat) (dec : Nat → List (List Char × List Char))
    (gs : List (Nat × List (List Char))) (i : Nat) (tmp : List (List Char))
    (h : take_gadget arch ((dec i).map render) = some tmp) :
    scan_step arch va dec gs i
      = if gs.any (fun g => g.2 == tmp) then gs else gs ++ [(va + i, tmp)] := by
  unfold scan_step
  rw [h]

theorem mem_scan_foldl (arch : Arch) (va : Nat) (dec : Nat → List (List Char × List Char)) :
    ∀ (l : List Nat) (gs : List (Nat × List (List Char))) (g : Nat × List (List Char)),
      g ∈ List.foldl (scan_step arch va dec) gs l →
      g ∈ gs ∨ ∃ i ∈ l, g.1 = va + i ∧ take_gadget arch ((dec i).map render) = some g.2 := by
  intro l
  induction l with
  | nil => intro gs g hg; exact Or.inl hg
  | cons k l' ih =>
    intro gs g hg
    rw [List.foldl_cons] at hg
    rcases ih _ _ hg with hmem | ⟨i, hi, hig, hprod⟩
    · rcases hk : take_gadget arch ((dec k).map render) with _ | tmp
      · rw [scan_step_none arch va dec gs k hk] at hmem
        exact Or.inl hmem
      · rw [scan_step_some arch va dec gs k tmp hk] at hmem
        by_cases hdup : gs.any (fun g => g.2 == tmp)
        · rw [if_pos hdup] at hmem
          exact Or.inl hmem
        · rw [if_neg hdup] at hmem
          rcases List.mem_append.mp hmem with hmem | hmem
          · exact Or.inl hmem
          · have := List.mem_singleton.mp hmem
            subst this
            exact Or.inr ⟨k, List.mem_cons_self _ _, rfl, hk⟩
    · exact Or.inr ⟨i, List.mem_cons_of_mem _ hi, hig, hprod⟩

theorem scan_skip (arch : Arch) (va : Nat) (dec : Nat → List (List Char × List Char)) :
    ∀ (l : List Nat) (gs : List (Nat × List (List Char))),
      (∀ i ∈ l, take_gadget arch ((dec i).map render) = none) →
      List.foldl (scan_step arch va dec) gs l = gs := by
  intro l
  induction l with
  | nil => intro gs _; rfl
  | cons k l' ih =>
    intro gs h
    rw [List.foldl_cons]
    have hk : scan_step arch va dec gs k = gs := by
      unfold scan_step
      rw [h k (List.mem_cons_self _ _)]
    rw [hk]
    exact ih gs (fun i hi => h i (List.mem_cons_of_mem _ hi))

/-- C1: every gadget stored by `find_gadgets` is a decoded sequence whose
last instruction passes `check_end` and whose earlier instructions all
fail it; no non-terminated candidate is ever stored. -/
theorem tail_only_invariant (arch : Arch) (dec : Nat → List (List Char × List Char))
    (va strt stop stp : Nat) (g : Nat × List (List Char))
    (hg : g ∈ find_gadgets arch dec va strt stop stp) :
    ∃ body lastI, g.2 = body ++ [lastI] ∧ check_end arch lastI = true ∧
      ∀ x ∈ body, check_end arch x = false := by
  unfold find_gadgets at hg
  rcases mem_scan_foldl arch va dec _ _ _ hg with hmem | ⟨i, _, _, hprod⟩
  · simp at hmem
  · exact take_gadget_some arch _ _ hprod

theorem tail_only_invariant_witness :
    ∃ body lastI, ((0, [chars "ret"]) : Nat × List (List Char)).2 = body ++ [lastI] ∧
      check_end .x64 lastI = true ∧ ∀ x ∈ body, check_end .x64 x = false :=
  tail_only_invariant .x64 (fun _ => [(chars "ret", [])]) 0 0 0 1 (0, [chars "ret"])
    (by decide)

/-- C3: on a synthetic x64 input whose only terminating decode is a lone
`ret` at offset 10, the scan with `start=0, end=15, step=1` stores exactly
one gadget, at virtual address `load_bias + 10`, with instructions
`["ret"]`. -/
theorem crafted_buffer_scan (dec : Nat → List (List Char × List Char)) (va : Nat)
    (h10 : (dec 10).map render = [chars "ret"])
    (hrest : ∀ i, i ≠ 10 → ∀ x ∈ (dec i).map render, check_end .x64 x = false) :
    find_gadgets .x64 dec va 0 15 1 = [(va + 10, [chars "ret"])] := by
  have hnone : ∀ i, i ≠ 10 → take_gadget .x64 ((dec i).map render) = none :=
    fun i hi => take_gadget_none .x64 _ (hrest i hi)
  have h1ne : ∀ i ∈ ([0, 1, 2, 3, 4, 5, 6, 7, 8, 9] : List Nat), i ≠ 10 := by decide
  have h2ne : ∀ i ∈ ([11, 12, 13, 14, 15, 16] : List Nat), i ≠ 10 := by decide
  unfold find_gadgets
  rw [show py_range 0 (15 + 1 * 2) 1
        = [0, 1, 2, 3, 4, 5, 6, 7, 8, 9] ++ 10 :: [11, 12, 13, 14, 15, 16] from by decide]
  rw [List.foldl_append,
      scan_skip .x64 va dec _ _ (fun i hi => hnone i (h1ne i hi)),
      List.foldl_cons]
  have hstep : scan_step .x64 va dec [] 10 = [(va + 10, [chars "ret"])] := by
    unfold scan_step
    rw [h10, show take_gadget .x64 [chars "ret"] = some [chars "ret"] from by decide]
    simp
  rw [hstep]
  exact scan_skip .x64 va dec _ _ (fun i hi => hnone i (h2ne i hi))

/-- The concrete synthetic decoder of the C3 witness: a lone `ret` decode
at offset 10, nothing anywhere else. -/
def dec_ret10 : Nat → List (List Char × List Char) :=
  fun i => if i = 10 then [(chars "ret", [])] else []

theorem crafted_buffer_scan_witness :
    find_gadgets .x64 dec_ret10 4194304 0 15 1 = [(4194304 + 10, [chars "ret"])] :=
  crafted_buffer_scan dec_ret10 4194304 (by decide)
    (by intro i hi x hx; simp [dec_ret10, hi] at hx)

theorem py_range_pairwise (a b c : Nat) (hc : 0 < c) :
    (py_range a b c).Pairwise (· < ·) := by
  unfold py_range
  refine List.Pairwise.map _ (fun x y hxy => ?_) (List.pairwise_lt_range _)
  exact Nat.add_lt_add_left (mul_lt_mul_of_pos_left hxy hc) a

theorem scan_invariant (arch : Arch) (va : Nat) (dec : Nat → List (List Char × List Char)) :
    ∀ (l done : List Nat) (gs : List (Nat × List (List Char))),
      (∀ d ∈ done, ∀ x ∈ l, d < x) →
      l.Pairwise (· < ·) →
      (∀ g ∈ gs, ∃ i ∈ done, g.1 = va + i ∧
          take_gadget arch ((dec i).map render) = some g.2 ∧
          ∀ j ∈ done, take_gadget arch ((dec j).map render) = some g.2 → i ≤ j) →
      (∀ j ∈ done, ∀ c, take_gadget arch ((dec j).map render) = some c →
          c ∈ gs.map Prod.snd) →
      (∀ g ∈ List.foldl (scan_step arch va dec) gs l,
          ∃ i ∈ done ++ l, g.1 = va + i ∧
            take_gadget arch ((dec i).map render) = some g.2 ∧
            ∀ j ∈ done ++ l, take_gadget arch ((dec j).map render) = some g.2 → i ≤ j) ∧
      (∀ j ∈ done ++ l, ∀ c, take_gadget arch ((dec j).map render) = some c →
          c ∈ (List.foldl (scan_step arch va dec) gs l).map Prod.snd) := by
  intro l
  induction l with
  | nil =>
    intro done gs _ _ hI1 hI2
    rw [List.foldl_nil, List.append_nil]
    exact ⟨hI1, hI2⟩
  | cons k l' ih =>
    intro done gs hsort hpl hI1 hI2
    have hkl' : ∀ x ∈ l', k < x := (List.pairwise_cons.mp hpl).1
    have hpl' : l'.Pairwise (· < ·) := (List.pairwise_cons.mp hpl).2
    have hdk : ∀ d ∈ done, d < k := fun d hd => hsort d hd k (List.mem_cons_self _ _)
    have hsort' : ∀ d ∈ done ++ [k], ∀ x ∈ l', d < x := by
      intro d hd x hx
      rcases List.mem_append.mp hd with hd | hd
      · exact hsort d hd x (List.mem_cons_of_mem _ hx)
      · rw [List.mem_singleton.mp hd]
        exact hkl' x hx
    rw [List.foldl_cons, List.append_cons]
    rcases hk : take_gadget arch ((dec k).map render) with _ | tmp
    · rw [scan_step_none arch va dec gs k hk]
      refine ih (done ++ [k]) gs hsort' hpl' ?_ ?_
      · intro g hg
        obtain ⟨i, hi, hgi, hprod, hmin⟩ := hI1 g hg
        refine ⟨i, List.mem_append_left _ hi, hgi, hprod, ?_⟩
        intro j hj hjp
        rcases List.mem_append.mp hj with hj | hj
        · exact hmin j hj hjp
        · rw [List.mem_singleton.mp hj] at hjp
          rw [hjp] at hk
          exact absurd hk (by simp)
      · intro j hj c hc
        rcases List.mem_append.mp hj with hj | hj
        · exact hI2 j hj c hc
        · rw [List.mem_singleton.mp hj] at hc
          rw [hc] at hk
          exact absurd hk (by simp)
    · by_cases hdup : gs.any (fun g => g.2 == tmp) = true
      · rw [scan_step_some arch va dec gs k tmp hk, if_pos hdup]
        have htmp : tmp ∈ gs.map Prod.snd := by
          obtain ⟨g₀, hg₀, hbeq⟩ := List.any_eq_true.mp hdup
          exact List.mem_map.mpr ⟨g₀, hg₀, beq_iff_eq.mp hbeq⟩
        refine ih (done ++ [k]) gs hsort' hpl' ?_ ?_
        · intro g hg
          obtain ⟨i, hi, hgi, hprod, hmin⟩ := hI1 g hg
          refine ⟨i, List.mem_append_left _ hi, hgi, hprod, ?_⟩
          intro j hj hjp
          rcases List.mem_append.mp hj with hj | hj
          · exact hmin j hj hjp
          · rw [List.mem_singleton.mp hj]
            exact Nat.le_of_lt (hdk i hi)
        · intro j hj c hc
          rcases List.mem_append.mp hj with hj | hj
          · exact hI2 j hj c hc
          · rw [List.mem_singleton.mp hj] at hc
            rw [hc] at hk
            rw [Option.some.injEq] at hk
            rw [hk]
            exact htmp
      · rw [scan_step_some arch va dec gs k tmp hk, if_neg hdup]
        have hfresh : tmp ∉ gs.map Prod.snd := by
          intro habs
          obtain ⟨g₀, hg₀, hsnd⟩ := List.mem_map.mp habs
          exact hdup (List.any_eq_true.mpr ⟨g₀, hg₀, beq_iff_eq.mpr hsnd⟩)
        refine ih (done ++ [k]) (gs ++ [(va + k, tmp)]) hsort' hpl' ?_ ?_
        · intro g hg
          rcases List.mem_append.mp hg with hg | hg
          · obtain ⟨i, hi, hgi, hprod, hmin⟩ := hI1 g hg
            refine ⟨i, List.mem_append_left _ hi, hgi, hprod, ?_⟩
            intro j hj hjp
            rcases List.mem_append.mp hj with hj | hj
            · exact hmin j hj hjp
            · rw [List.mem_singleton.mp hj] at hjp
              rw [hjp] at hk
              rw [Option.some.injEq] at hk
              exact absurd (List.mem_map.mpr ⟨g, hg, hk⟩) hfresh
          · rw [List.mem_singleton.mp hg]
            refine ⟨k, List.mem_append_right _ (List.mem_singleton.mpr rfl), rfl, hk, ?_⟩
            intro j hj hjp
            rcases List.mem_append.mp hj with hj | hj
            · exact absurd (hI2 j hj tmp hjp) hfresh
            · rw [List.mem_singleton.mp hj]
        · intro j hj c hc
          rcases List.mem_append.mp hj with hj | hj
          · rw [List.map_append]
            exact List.mem_append_left _ (hI2 j hj c hc)
          · rw [List.mem_singleton.mp hj] at hc
            rw [hc] at hk
            rw [Option.some.injEq] at hk
            rw [List.map_append, hk]
            exact List.mem_append_right _ (by simp)

/-- C2: gadget-store insertion is deduplicated on instruction-sequence
content — a candidate whose sequence is already stored leaves the store
unchanged — and the entry kept for any given content is the one produced
at the lowest start offset of the scan (the first discovered), so no two
stored entries share content. -/
theorem dedup_first_occurrence (arch : Arch) (dec : Nat → List (List Char × List Char))
    (va strt stop stp : Nat) (hstp : 0 < stp) :
    (∀ (gs : List (Nat × List (List Char))) (i : Nat) (tmp : List (List Char)),
        take_gadget arch ((dec i).map render) = some tmp →
        tmp ∈ gs.map Prod.snd → scan_step arch va dec gs i = gs)
    ∧ (∀ g ∈ find_gadgets arch dec va strt stop stp,
        ∀ g' ∈ find_gadgets arch dec va strt stop stp, g.2 = g'.2 → g = g')
    ∧ (∀ g ∈ find_gadgets arch dec va strt stop stp,
        ∃ i ∈ py_range strt (stop + stp * 2) stp, g.1 = va + i ∧
          take_gadget arch ((dec i).map render) = some g.2 ∧
          ∀ j ∈ py_range strt (stop + stp * 2) stp,
            take_gadget arch ((dec j).map render) = some g.2 → i ≤ j) := by
  have hmain := scan_invariant arch va dec (py_range strt (stop + stp * 2) stp) [] []
    (by simp) (py_range_pairwise _ _ _ hstp) (by simp) (by simp)
  rw [List.nil_append] at hmain
  refine ⟨?_, ?_, hmain.1⟩
  · intro gs i tmp hprod htmp
    rw [scan_step_some arch va dec gs i tmp hprod]
    obtain ⟨g₀, hg₀, hsnd⟩ := List.mem_map.mp htmp
    have hany : (gs.any fun g => g.2 == tmp) = true :=
      List.any_eq_true.mpr ⟨g₀, hg₀, beq_iff_eq.mpr hsnd⟩
    rw [if_pos hany]
  · intro g hg g' hg' heq
    obtain ⟨i, hi, hgi, hprod, hmin⟩ := hmain.1 g hg
    obtain ⟨i', hi', hgi', hprod', hmin'⟩ := hmain.1 g' hg'
    have h1 : i ≤ i' := hmin i' hi' (by rw [← heq] at hprod'; exact hprod')
    have h2 : i' ≤ i := hmin' i hi (by rw [heq] at hprod; exact hprod)
    have : i = i' := Nat.le_antisymm h1 h2
    have haddr : g.1 = g'.1 := by rw [hgi, hgi', this]
    exact Prod.ext haddr heq

theorem dedup_first_occurrence_witness :
    scan_step .x64 0 (fun _ => [(chars "ret", [])]) [(0, [chars "ret"])] 3
      = [(0, [chars "ret"])] :=
  (dedup_first_occurrence .x64 (fun _ => [(chars "ret", [])]) 0 0 4 1 (by decide)).1
    [(0, [chars "ret"])] 3 [chars "ret"] (by decide) (by decide)

/-! ### Range and configuration behaviour -/

theorem py_range_empty (a b c : Nat) (h : b ≤ a) : py_range a b c = [] := by
  unfold py_range
  have hz : b - a = 0 := Nat.sub_eq_zero_of_le h
  rw [hz]
  have hdiv : (0 + c - 1) / c = 0 := by
    cases c with
    | zero => simp
    | succ k =>
      rw [Nat.zero_add]
      exact Nat.div_eq_of_lt (by omega)
  rw [hdiv]
  rfl

/-- C7 (amended): a range with `start > end` is not rejected anywhere in
the script; `find_gadgets` simply iterates
`range(start, end + 2*step, step)` — empty whenever
`end + 2*step <= start` — and the run proceeds normally with an empty
gadget store instead of aborting. -/
theorem start_gt_end_scans_nothing (arch : Arch) (dec : Nat → List (List Char × List Char))
    (va strt stop stp : Nat) (h : stop + stp * 2 ≤ strt) :
    find_gadgets arch dec va strt stop stp = [] := by
  unfold find_gadgets
  rw [py_range_empty _ _ _ h]
  rfl

theorem start_gt_end_scans_nothing_witness :
    find_gadgets .x64 (fun _ => []) 0 9 3 1 = [] :=
  start_gt_end_scans_nothing .x64 (fun _ => []) 0 9 3 1 (by decide)

/-- C7 (counterexample): with `start = 10 > 5 = end` the scan does not
abort: it runs to completion and produces the empty store, even under a
decoder that would yield a gadget at every offset — the claimed fatal
configuration check does not exist in the code. -/
theorem start_gt_end_no_abort_cex :
    10 > 5 ∧ find_gadgets .x64 (fun _ => [(chars "ret", [])]) 0 10 5 1 = [] :=
  ⟨by decide, rfl⟩

/-- C8: the arm tail classifier rejects the x64-only terminating mnemonic
`syscall` (which the x64 classifier accepts). -/
theorem arm_rejects_syscall :
    check_end .arm (chars "syscall") = false ∧ check_end .x64 (chars "syscall") = true :=
  ⟨by decide, by decide⟩

/-- C10: the aarch64 template table is `None`, so `check_interesting`
returns immediately: the interesting store is left untouched (empty on a
fresh run) and no section is ever appended to the report. -/
theorem aarch64_no_interesting (gadgets ig0 : List (Nat × List (List Char))) :
    pattern_of .aarch64 = none
    ∧ check_interesting (pattern_of .aarch64) gadgets ig0 = (ig0, none)
    ∧ (check_interesting (pattern_of .aarch64) gadgets []).1 = [] :=
  ⟨rfl, rfl, rfl⟩

theorem aarch64_no_interesting_witness :
    check_interesting (pattern_of .aarch64) [(0, [chars "ret"])] [] = ([], none) :=
  (aarch64_no_interesting [(0, [chars "ret"])] []).2.1

/-! ### Lemmas about the interesting-gadget loop -/

theorem ig_foldl_saturated (addr : Nat) (insts : List (List Char)) :
    ∀ (l : List (Nat × Regex)) (st : List (Nat × List (List Char)) × List Char × List Nat),
      st.1.any (fun p => p.2 == insts) = true →
      List.foldl (ig_step addr insts) st l = st := by
  intro l
  induction l with
  | nil => intro st _; rfl
  | cons ip l' ih =>
    intro st h
    rw [List.foldl_cons]
    have hstep : ig_step addr insts st ip = st := by
      unfold ig_step
      rw [h]
      simp
    rw [hstep]
    exact ih st h

theorem dict_insert_saturates (k : Nat) (v : List (List Char))
    (d : List (Nat × List (List Char))) :
    (dict_insert k v d).any (fun p => p.2 == v) = true := by
  unfold dict_insert
  by_cases h : d.any (fun p => p.1 == k) = true
  · rw [if_pos h]
    obtain ⟨p₀, hp₀, hk⟩ := List.any_eq_true.mp h
    refine List.any_eq_true.mpr ⟨(k, v), ?_, by simp⟩
    refine List.mem_map.mpr ⟨p₀, hp₀, ?_⟩
    simp [hk]
  · rw [if_neg h]
    exact List.any_eq_true.mpr ⟨(k, v), List.mem_append_right _ (by simp), by simp⟩

theorem ig_foldl_fresh (addr : Nat) (insts : List (List Char)) :
    ∀ (l : List (Nat × Regex)) (ig : List (Nat × List (List Char)))
      (lines : List Char) (recs : List Nat),
      ig.any (fun p => p.2 == insts) = false →
      List.foldl (ig_step addr insts) (ig, lines, recs) l =
        match l.find? (fun ip => re_match ip.2 (join_semi insts)) with
        | none => (ig, lines, recs)
        | some ip =>
          (dict_insert addr insts ig, lines ++ gadget_line addr insts, recs ++ [ip.1]) := by
  intro l
  induction l with
  | nil => intro ig lines recs _; rfl
  | cons ip l' ih =>
    intro ig lines recs h
    rw [List.foldl_cons]
    by_cases hm : re_match ip.2 (join_semi insts) = true
    · have hstep : ig_step addr insts (ig, lines, recs) ip
          = (dict_insert addr insts ig, lines ++ gadget_line addr insts, recs ++ [ip.1]) := by
        unfold ig_step
        rw [hm, h]
        simp
      rw [hstep,
          ig_foldl_saturated addr insts l' _ (dict_insert_saturates addr insts ig)]
      simp only [List.find?_cons, hm]
    · have hm' : re_match ip.2 (join_semi insts) = false := by simpa using hm
      have hstep : ig_step addr insts (ig, lines, recs) ip = (ig, lines, recs) := by
        unfold ig_step
        rw [hm']
        simp
      rw [hstep, ih ig lines recs h]
      simp only [List.find?_cons, hm']

theorem proc_gadget_spec (pats : List Regex) (addr : Nat) (insts : List (List Char))
    (ig : List (Nat × List (List Char))) :
    (proc_gadget pats addr insts ig).2.2.length ≤ 1
    ∧ (insts ∈ ig.map Prod.snd → proc_gadget pats addr insts ig = (ig, [], []))
    ∧ (insts ∉ ig.map Prod.snd →
        (proc_gadget pats addr insts ig).2.2
          = ((pats.enum.find? (fun ip => re_match ip.2 (join_semi insts))).map
              Prod.fst).toList) := by
  unfold proc_gadget
  by_cases h : insts ∈ ig.map Prod.snd
  · have hany : ig.any (fun p => p.2 == insts) = true := by
      obtain ⟨p₀, hp₀, hsnd⟩ := List.mem_map.mp h
      exact List.any_eq_true.mpr ⟨p₀, hp₀, beq_iff_eq.mpr hsnd⟩
    rw [ig_foldl_saturated addr insts _ _ hany]
    exact ⟨by simp, fun _ => rfl, fun hn => absurd h hn⟩
  · have hany : ig.any (fun p => p.2 == insts) = false := by
      rw [Bool.eq_false_iff]
      intro habs
      obtain ⟨p₀, hp₀, hbeq⟩ := List.any_eq_true.mp habs
      exact h (List.mem_map.mpr ⟨p₀, hp₀, beq_iff_eq.mp hbeq⟩)
    rw [ig_foldl_fresh addr insts _ _ _ _ hany]
    refine ⟨?_, fun hmem => absurd hmem h, fun _ => ?_⟩
    · cases hf : pats.enum.find? (fun ip => re_match ip.2 (join_semi insts)) <;>
        simp [hf]
    · cases hf : pats.enum.find? (fun ip => re_match ip.2 (join_semi insts)) <;>
        simp [hf]

/-- C5: per gadget, the selector records at most one interesting entry;
when the gadget's content is not yet among the interesting gadgets the
single record (if any) happens at the first template, in list order, that
matches the joined text, and a gadget whose content is already present is
never recorded again. -/
theorem interesting_recorded_once (pats : List Regex) (addr : Nat)
    (insts : List (List Char)) (ig : List (Nat × List (List Char))) :
    (proc_gadget pats addr insts ig).2.2.length ≤ 1
    ∧ (insts ∈ ig.map Prod.snd → proc_gadget pats addr insts ig = (ig, [], []))
    ∧ (insts ∉ ig.map Prod.snd →
        (proc_gadget pats addr insts ig).2.2
          = ((pats.enum.find? (fun ip => re_match ip.2 (join_semi insts))).map
              Prod.fst).toList) :=
  proc_gadget_spec pats addr insts ig

theorem interesting_recorded_once_witness :
    (proc_gadget patterns_x64 7 [chars "ret"] []).2.2
      = ((patterns_x64.enum.find? (fun ip => re_match ip.2 (join_semi [chars "ret"]))).map
          Prod.fst).toList :=
  (interesting_recorded_once patterns_x64 7 [chars "ret"] []).2.2 (by decide)

/-! ### Membership inversion for the matcher -/

theorem mem_rmatchR_eps (sc : Regex → Nat → List Char → List (Nat × List Char))
    (p : Nat) (s : List Char) (x : Nat × List Char) :
    x ∈ rmatchR sc .eps p s ↔ x = (p, s) := by
  simp [rmatchR]

theorem mem_rmatchR_bos (sc : Regex → Nat → List Char → List (Nat × List Char))
    (p : Nat) (s : List Char) (x : Nat × List Char) :
    x ∈ rmatchR sc .bos p s ↔ p = 0 ∧ x = (p, s) := by
  by_cases h : p = 0
  · simp [rmatchR, h]
  · simp [rmatchR, h]

theorem mem_rmatchR_cat (sc : Regex → Nat → List Char → List (Nat × List Char))
    (a b : Regex) (p : Nat) (s : List Char) (x : Nat × List Char) :
    x ∈ rmatchR sc (.cat a b) p s ↔
      ∃ pr ∈ rmatchR sc a p s, x ∈ rmatchR sc b pr.1 pr.2 := by
  simp [rmatchR]

theorem mem_rmatchR_chr (sc : Regex → Nat → List Char → List (Nat × List Char))
    (c : Char) (p : Nat) (s : List Char) (x : Nat × List Char)
    (h : x ∈ rmatchR sc (.chr c) p s) : x.1 = p + 1 := by
  cases s with
  | nil => simp [rmatchR] at h
  | cons y rest =>
    by_cases hc : y = c
    · simp [rmatchR, hc] at h
      rw [h]
    · simp [rmatchR, hc] at h

/-- The merged x86 pattern is unsatisfiable at every position and subject:
its interior `^` would have to hold at the position reached after the
literal `ret`, which is at least 3. -/
theorem rmatchR_pat86_dead (sc : Regex → Nat → List Char → List (Nat × List Char))
    (p : Nat) (s : List Char) : rmatchR sc pat86_popret_call p s = [] := by
  rw [List.eq_nil_iff_forall_not_mem]
  intro x hx
  rw [show pat86_popret_call
        = Regex.cat .bos (Regex.cat (.star gpop_e) (Regex.cat (rstr (chars "ret"))
            (Regex.cat .bos (rseq [gpop_e, rstr (chars "call e"), .any, .any]))))
      from rfl] at hx
  rw [mem_rmatchR_cat] at hx
  obtain ⟨p1, hp1, hx⟩ := hx
  rw [mem_rmatchR_cat] at hx
  obtain ⟨p2, hp2, hx⟩ := hx
  rw [mem_rmatchR_cat] at hx
  obtain ⟨p3, hp3, hx⟩ := hx
  rw [show rstr (chars "ret")
        = Regex.cat (.chr 'r') (Regex.cat (.chr 'e') (Regex.cat (.chr 't') .eps))
      from rfl] at hp3
  rw [mem_rmatchR_cat] at hp3
  obtain ⟨a1, ha1, hp3⟩ := hp3
  have ha1p := mem_rmatchR_chr _ _ _ _ _ ha1
  rw [mem_rmatchR_cat] at hp3
  obtain ⟨a2, ha2, hp3⟩ := hp3
  have ha2p := mem_rmatchR_chr _ _ _ _ _ ha2
  rw [mem_rmatchR_cat] at hp3
  obtain ⟨a3, ha3, hp3⟩ := hp3
  have ha3p := mem_rmatchR_chr _ _ _ _ _ ha3
  rw [mem_rmatchR_eps] at hp3
  rw [mem_rmatchR_cat] at hx
  obtain ⟨b1, hb1, _⟩ := hx
  rw [mem_rmatchR_bos] at hb1
  have hzero : p3.1 = 0 := hb1.1
  have heq : p3.1 = a3.1 := by rw [hp3]
  omega

theorem pat86_dead_never (s : List Char) : re_match pat86_popret_call s = false := by
  unfold re_match
  rw [show rmatchAux (s.length + 1) pat86_popret_call 0 s
        = rmatchR (fun a p t => rmatchAux s.length (.star a) p t) pat86_popret_call 0 s
      from rfl]
  rw [rmatchR_pat86_dead]
  rfl

/-- C9: the first element of the x86 template list is the concatenation of
the pop-ret and pop-call regex literals (the comma between them is
missing), so the list has three entries, and the merged pattern — with its
interior `^` reachable only after the literal `ret`, i.e. at position
at least 3 — matches no gadget text at all; hence for x86 the selector
never records any gadget at template index 0. -/
theorem x86_first_template_dead :
    patterns_x86.length = 3
    ∧ (∀ s, re_match pat86_popret_call s = false)
    ∧ (∀ (addr : Nat) (insts : List (List Char)) (ig : List (Nat × List (List Char))),
        0 ∉ (proc_gadget patterns_x86 addr insts ig).2.2) := by
  refine ⟨rfl, pat86_dead_never, ?_⟩
  intro addr insts ig h0
  by_cases h : insts ∈ ig.map Prod.snd
  · rw [(proc_gadget_spec patterns_x86 addr insts ig).2.1 h] at h0
    simp at h0
  · rw [(proc_gadget_spec patterns_x86 addr insts ig).2.2 h] at h0
    rw [show patterns_x86.enum
          = [(0, pat86_popret_call), (1, pat86_jmp), (2, pat86_mov)] from rfl] at h0
    rw [show List.find? (fun ip => re_match ip.2 (join_semi insts))
            [(0, pat86_popret_call), (1, pat86_jmp), (2, pat86_mov)]
          = List.find? (fun ip => re_match ip.2 (join_semi insts))
            [(1, pat86_jmp), (2, pat86_mov)]
        from by simp [List.find?_cons, pat86_dead_never]] at h0
    cases hf : List.find? (fun ip => re_match ip.2 (join_semi insts))
        [(1, pat86_jmp), (2, pat86_mov)] with
    | none => rw [hf] at h0; simp at h0
    | some ip =>
      rw [hf] at h0
      simp at h0
      have hmem := List.mem_of_find?_eq_some hf
      rcases List.mem_cons.mp hmem with rfl | hmem2
      · simp at h0
      · rw [List.mem_singleton.mp hmem2] at h0
        simp at h0

theorem x86_first_template_dead_witness :
    (0 : Nat) ∉ (proc_gadget patterns_x86 5 [chars "pop eax", chars "ret"] []).2.2 :=
  x86_first_template_dead.2.2 5 [chars "pop eax", chars "ret"] []

/-! ### Monotonicity and suffix extension of the matcher -/

theorem self_mem_rmatchAux_star (g : Nat) (a : Regex) (q : Nat) (t : List Char) :
    (q, t) ∈ rmatchAux g (.star a) q t := by
  cases g with
  | zero => exact List.mem_cons_self _ _
  | succ k => exact List.mem_cons_self _ _

theorem rmatchR_mono (sc1 sc2 : Regex → Nat → List Char → List (Nat × List Char))
    (hsc : ∀ a p s, sc1 a p s ⊆ sc2 a p s) :
    ∀ (r : Regex) (p : Nat) (s : List Char), rmatchR sc1 r p s ⊆ rmatchR sc2 r p s := by
  intro r
  induction r with
  | eps => intro p s x hx; exact hx
  | bos => intro p s x hx; exact hx
  | eos => intro p s x hx; exact hx
  | chr c => intro p s x hx; exact hx
  | any => intro p s x hx; exact hx
  | cls cs => intro p s x hx; exact hx
  | cat a b iha ihb =>
    intro p s x hx
    rw [mem_rmatchR_cat] at hx ⊢
    obtain ⟨pr, hpr, hx⟩ := hx
    exact ⟨pr, iha p s hpr, ihb pr.1 pr.2 hx⟩
  | opt a iha =>
    intro p s x hx
    simp only [rmatchR, List.mem_cons] at hx ⊢
    rcases hx with rfl | hx
    · exact Or.inl rfl
    · exact Or.inr (iha p s hx)
  | star a iha =>
    intro p s x hx
    simp only [rmatchR, List.mem_cons] at hx ⊢
    rcases hx with rfl | hx
    · exact Or.inl rfl
    · right
      rw [List.mem_flatMap] at hx ⊢
      obtain ⟨pr, hpr, hx⟩ := hx
      have hpr' := List.mem_filter.mp hpr
      exact ⟨pr, List.mem_filter.mpr ⟨iha p s hpr'.1, hpr'.2⟩, hsc a pr.1 pr.2 hx⟩

theorem rmatchAux_mono : ∀ (f f' : Nat), f ≤ f' → ∀ (r : Regex) (p : Nat) (s : List Char),
    rmatchAux f r p s ⊆ rmatchAux f' r p s := by
  intro f
  induction f with
  | zero =>
    intro f' _ r p s
    cases f' with
    | zero => exact fun x hx => hx
    | succ g =>
      show rmatchR (fun _ p s => [(p, s)]) r p s
        ⊆ rmatchR (fun a p s => rmatchAux g (.star a) p s) r p s
      apply rmatchR_mono
      intro a q t x hx
      rw [List.mem_singleton.mp hx]
      exact self_mem_rmatchAux_star g a q t
  | succ k ih =>
    intro f' hf r p s
    cases f' with
    | zero => omega
    | succ g =>
      show rmatchR (fun a p s => rmatchAux k (.star a) p s) r p s
        ⊆ rmatchR (fun a p s => rmatchAux g (.star a) p s) r p s
      apply rmatchR_mono
      intro a q t
      exact ih g (Nat.le_of_succ_le_succ hf) (.star a) q t

theorem rmatchR_append (t : List Char)
    (sc1 sc2 : Regex → Nat → List Char → List (Nat × List Char))
    (hsc : ∀ a (p : Nat) (s : List Char) (x : Nat × List Char), no_eos a = true →
      x ∈ sc1 a p s → (x.1, x.2 ++ t) ∈ sc2 a p (s ++ t)) :
    ∀ (r : Regex), no_eos r = true → ∀ (p : Nat) (s : List Char) (x : Nat × List Char),
      x ∈ rmatchR sc1 r p s → (x.1, x.2 ++ t) ∈ rmatchR sc2 r p (s ++ t) := by
  intro r
  induction r with
  | eps =>
    intro _ p s x hx
    rw [mem_rmatchR_eps] at hx
    rw [hx, mem_rmatchR_eps]
  | bos =>
    intro _ p s x hx
    rw [mem_rmatchR_bos] at hx
    rw [hx.2, mem_rmatchR_bos]
    exact ⟨hx.1, rfl⟩
  | eos =>
    intro hne
    simp [no_eos] at hne
  | chr c =>
    intro _ p s x hx
    cases s with
    | nil => simp [rmatchR] at hx
    | cons y rest =>
      by_cases hc : y = c
      · subst hc
        simp [rmatchR] at hx
        rw [List.cons_append]
        simp [rmatchR, hx]
      · simp only [rmatchR] at hx
        rw [if_neg hc] at hx
        simp at hx
  | any =>
    intro _ p s x hx
    cases s with
    | nil => simp [rmatchR] at hx
    | cons y rest =>
      by_cases hc : y = '\n'
      · simp only [rmatchR] at hx
        rw [if_pos hc] at hx
        simp at hx
      · simp only [rmatchR] at hx
        rw [if_neg hc] at hx
        rw [List.mem_singleton.mp hx, List.cons_append]
        simp only [rmatchR]
        rw [if_neg hc]
        simp
  | cls cs =>
    intro _ p s x hx
    cases s with
    | nil => simp [rmatchR] at hx
    | cons y rest =>
      by_cases hc : y ∈ cs
      · simp only [rmatchR] at hx
        rw [if_pos hc] at hx
        rw [List.mem_singleton.mp hx, List.cons_append]
        simp only [rmatchR]
        rw [if_pos hc]
        simp
      · simp only [rmatchR] at hx
        rw [if_neg hc] at hx
        simp at hx
  | cat a b iha ihb =>
    intro hne p s x hx
    rw [no_eos, Bool.and_eq_true] at hne
    rw [mem_rmatchR_cat] at hx
    obtain ⟨pr, hpr, hx⟩ := hx
    rw [mem_rmatchR_cat]
    exact ⟨(pr.1, pr.2 ++ t), iha hne.1 p s pr hpr, ihb hne.2 pr.1 pr.2 x hx⟩
  | opt a iha =>
    intro hne p s x hx
    have hne' : no_eos a = true := hne
    simp only [rmatchR, List.mem_cons] at hx ⊢
    rcases hx with rfl | hx
    · exact Or.inl rfl
    · exact Or.inr (iha hne' p s x hx)
  | star a iha =>
    intro hne p s x hx
    have hne' : no_eos a = true := hne
    simp only [rmatchR, List.mem_cons] at hx ⊢
    rcases hx with rfl | hx
    · exact Or.inl rfl
    · right
      rw [List.mem_flatMap] at hx ⊢
      obtain ⟨pr, hpr, hx⟩ := hx
      have hpr' := List.mem_filter.mp hpr
      have hlen : decide ((pr.2 ++ t).length < (s ++ t).length) = true := by
        have := of_decide_eq_true hpr'.2
        simp [List.length_append]
        omega
      refine ⟨(pr.1, pr.2 ++ t), List.mem_filter.mpr ⟨iha hne' p s pr hpr'.1, hlen⟩, ?_⟩
      exact hsc a pr.1 pr.2 x hne' hx

theorem rmatchAux_append (t : List Char) :
    ∀ (f : Nat) (r : Regex), no_eos r = true →
      ∀ (p : Nat) (s : List Char) (x : Nat × List Char), x ∈ rmatchAux f r p s →
        (x.1, x.2 ++ t) ∈ rmatchAux f r p (s ++ t) := by
  intro f
  induction f with
  | zero =>
    intro r hr p s x hx
    refine rmatchR_append t _ _ ?_ r hr p s x hx
    intro a q u y _ hy
    rw [List.mem_singleton.mp hy]
    exact List.mem_singleton.mpr rfl
  | succ k ih =>
    intro r hr p s x hx
    refine rmatchR_append t _ _ ?_ r hr p s x hx
    intro a q u y ha hy
    exact ih (.star a) ha q u y hy

theorem re_match_append_of_no_eos (r : Regex) (s t : List Char)
    (hne : no_eos r = true) (hm : re_match r s = true) :
    re_match r (s ++ t) = true := by
  unfold re_match at hm ⊢
  have h1 : rmatchAux (s.length + 1) r 0 s ≠ [] := by
    intro he
    rw [he] at hm
    simp at hm
  obtain ⟨x, hx⟩ := List.exists_mem_of_ne_nil _ h1
  have h2 := rmatchAux_append t (s.length + 1) r hne 0 s x hx
  have hle : s.length + 1 ≤ (s ++ t).length + 1 := by
    simp [List.length_append]
  have h3 := rmatchAux_mono (s.length + 1) ((s ++ t).length + 1) hle r 0 (s ++ t) h2
  cases hres : rmatchAux ((s ++ t).length + 1) r 0 (s ++ t) with
  | nil => rw [hres] at h3; simp at h3
  | cons y ys => rfl

/-- C4 (amended): `re.match` anchors at the start only, so for every
template with no end anchor `$` a gadget text extending a matching text
still matches (extra trailing instructions are preserved); all x86 and
x64 templates and the arm pop and str templates are `$`-free, but the arm
register-branch template `^bl?x? ...?$` carries an end anchor and is
excluded. -/
theorem re_match_start_anchored :
    (∀ (r : Regex) (s t : List Char), no_eos r = true → re_match r s = true →
        re_match r (s ++ t) = true)
    ∧ (∀ p ∈ patterns_x86 ++ patterns_x64 ++ [pat_arm_pop, pat_arm_str], no_eos p = true)
    ∧ no_eos pat_arm_bx = false :=
  ⟨re_match_append_of_no_eos, by decide, by decide⟩

theorem re_match_start_anchored_witness :
    re_match pat64_pop_e (chars "ret" ++ chars "; pop rax; jmp rcx") = true :=
  re_match_start_anchored.1 pat64_pop_e (chars "ret") (chars "; pop rax; jmp rcx")
    (by decide) (by decide)

/-- C4 (counterexample): the arm register-branch template `^bl?x? ...?$`
(element 1 of `patterns_arm`) is not matched with prefix-anchored
"regardless of what follows" semantics: the gadget text
`bx r3; pop {r4, pc}` begins with `bx r3`, a text the template matches,
yet `re.match` on the full text fails because of the end anchor. -/
theorem arm_end_anchor_cex :
    patterns_arm[1]? = some pat_arm_bx
    ∧ re_match pat_arm_bx (chars "bx r3") = true
    ∧ chars "bx r3; pop \x7br4, pc\x7d" = chars "bx r3" ++ chars "; pop \x7br4, pc\x7d"
    ∧ re_match pat_arm_bx (chars "bx r3; pop \x7br4, pc\x7d") = false :=
  ⟨rfl, by decide, by decide, by decide⟩

/-! ### Address formatting -/

theorem hexVal_hexChar (d : Nat) (hd : d < 16) : hexVal (hexChar d) = d := by
  interval_cases d <;> rfl

theorem hexChar_mem_charset (n : Nat) : hexChar n ∈ chars "0123456789abcdef" := by
  unfold hexChar
  split <;> decide

theorem from_hex_append_digit (l : List Char) (c : Char) :
    from_hex (l ++ [c]) = 16 * from_hex l + hexVal c := by
  unfold from_hex
  rw [List.foldl_append]
  rfl

theorem to_hex_rev_sound : ∀ (f n : Nat), n < 16 ^ f →
    from_hex (to_hex_rev f n).reverse = n := by
  intro f
  induction f with
  | zero =>
    intro n hn
    interval_cases n
    rfl
  | succ k ih =>
    intro n hn
    have hunf : to_hex_rev (k + 1) n
        = if n < 16 then [hexChar n] else hexChar (n % 16) :: to_hex_rev k (n / 16) := rfl
    by_cases h16 : n < 16
    · rw [hunf, if_pos h16]
      show from_hex [hexChar n] = n
      unfold from_hex
      simp [hexVal_hexChar n h16]
    · rw [hunf, if_neg h16, List.reverse_cons, from_hex_append_digit]
      have hdiv : n / 16 < 16 ^ k := by
        have hlt : n < 16 ^ k * 16 := by
          rw [← pow_succ]
          exact hn
        exact (Nat.div_lt_iff_lt_mul (by omega)).mpr hlt
      rw [ih (n / 16) hdiv, hexVal_hexChar (n % 16) (Nat.mod_lt _ (by omega))]
      omega

theorem n_lt_16_pow (n : Nat) : n < 16 ^ (n + 1) := by
  calc n < 2 ^ n := Nat.lt_two_pow n
    _ ≤ 16 ^ n := Nat.pow_le_pow_left (by omega) n
    _ ≤ 16 ^ (n + 1) := Nat.pow_le_pow_right (by omega) (by omega)

theorem hex_digits_sound (n : Nat) : from_hex (hex_digits n) = n :=
  to_hex_rev_sound (n + 1) n (n_lt_16_pow n)

theorem mem_to_hex_rev : ∀ (f n : Nat) (c : Char), c ∈ to_hex_rev f n →
    c ∈ chars "0123456789abcdef" := by
  intro f
  induction f with
  | zero => intro n c hc; simp [to_hex_rev] at hc
  | succ k ih =>
    intro n c hc
    have hunf : to_hex_rev (k + 1) n
        = if n < 16 then [hexChar n] else hexChar (n % 16) :: to_hex_rev k (n / 16) := rfl
    rw [hunf] at hc
    by_cases h16 : n < 16
    · rw [if_pos h16] at hc
      rw [List.mem_singleton.mp hc]
      exact hexChar_mem_charset n
    · rw [if_neg h16] at hc
      rcases List.mem_cons.mp hc with rfl | hc
      · exact hexChar_mem_charset _
      · exact ih _ _ hc

theorem from_hex_replicate_zero (k : Nat) (l : List Char) :
    from_hex (List.replicate k '0' ++ l) = from_hex l := by
  induction k with
  | zero => rfl
  | succ m ih =>
    rw [List.replicate_succ, List.cons_append]
    show from_hex (List.replicate m '0' ++ l) = from_hex l
    exact ih

/-- C6 (amended): every address field printed by the report lines is
lowercase hexadecimal with a `0x` prefix, zero-padded to a minimum TOTAL
width of 8 characters including the prefix — that is, a minimum of 6 (not
8) hex digits after the prefix — and the digits denote the address value
exactly. -/
theorem address_format_width (a : Nat) :
    (format_addr a).take 2 = chars "0x"
    ∧ 8 ≤ (format_addr a).length
    ∧ 6 ≤ ((format_addr a).drop 2).length
    ∧ (∀ c ∈ (format_addr a).drop 2, c ∈ chars "0123456789abcdef")
    ∧ from_hex ((format_addr a).drop 2) = a := by
  have hdrop : (format_addr a).drop 2
      = List.replicate (6 - (hex_digits a).length) '0' ++ hex_digits a := rfl
  refine ⟨rfl, ?_, ?_, ?_, ?_⟩
  · show 8 ≤ (format_addr a).length
    unfold format_addr
    simp [List.length_append, List.length_replicate]
    omega
  · rw [hdrop]
    simp [List.length_append, List.length_replicate]
    omega
  · intro c hc
    rw [hdrop] at hc
    rcases List.mem_append.mp hc with hc | hc
    · rw [List.eq_of_mem_replicate hc]
      decide
    · unfold hex_digits at hc
      exact mem_to_hex_rev _ _ _ (List.mem_reverse.mp hc)
  · rw [hdrop, from_hex_replicate_zero]
    exact hex_digits_sound a

theorem address_format_width_witness :
    from_hex ((format_addr 48879).drop 2) = 48879 :=
  (address_format_width 48879).2.2.2.2

/-- C6 (counterexample): the report line for address 10 is
`0x00000a: ret` — six hex digits after the `0x`, not a minimum of eight.
Python's `#08x` pads to a total width of 8 including the prefix. -/
theorem address_format_cex :
    gadget_line 10 [chars "ret"] = chars "0x00000a: ret\n"
    ∧ ((format_addr 10).drop 2).length = 6
    ∧ ¬ 8 ≤ ((format_addr 10).drop 2).length :=
  ⟨by decide, by decide, by decide⟩
